import Mathlib

/-!
Shallow embedding of the cpp-tree-sitter access layer
(src/include/tree_sitter/cpp-tree-sitter.hpp) together with a model of the
external tree-sitter engine it delegates to.  The wrapper layer (structs
`language`, `node`, `tree`, `parser`, `cursor` and their methods) is
translated function-by-function from the header.  The engine itself
(`ts_*` functions, `TSNode`, `TSTree`, `TSTreeCursor`) is not part of the
repository: those definitions are modelled from the specification's
boundary description (spec sections 4 and 6) and each carries a doc
comment saying so.

Conventions of the embedding:
  * machine strings (`std::string_view` contents, buffers) are `List Char`;
  * `uint32_t` arithmetic is `Nat` with explicit `% 2 ^ 32` where the
    source casts (`static_cast<uint32_t>`) or subtracts;
  * C++ undefined behaviour (calling `front()` on an empty `string_view`,
    constructing a `string_view` from a null `char *`) is made explicit:
    the embedded operation returns `none` / `.error ()` on exactly the
    inputs where the source's behaviour is undefined;
  * a C++ method that mutates its object is a Lean function from the old
    state to the new state (paired with the returned value, if any).
-/

/-- Per-node payload of the engine's tree storage: symbol code, node flags,
byte range and the grammar-assigned field name of the slot this node
occupies in its parent (absent when the slot has no field). -/
structure NodeData where
  sym : Nat
  isNamed : Bool
  isMissing : Bool
  isExtra : Bool
  isError : Bool
  startByte : Nat
  endByte : Nat
  field : Option (List Char)
  deriving Repr, DecidableEq

/-- Modelled from the spec: the engine-owned storage of one parse result, a
finitely-branching ordered tree of nodes (spec section 6: "Given a tree
handle: root node; given a node: parent/children/siblings/field
lookups/flags/symbol/type/byte-or-point ranges"). -/
inductive STree where
  | mk (data : NodeData) (children : List STree)
  deriving Repr

/-- The payload stored at the root of a subtree. -/
def STree.data : STree → NodeData
  | .mk d _ => d

/-- The (ordered) children of the root of a subtree. -/
def STree.children : STree → List STree
  | .mk _ cs => cs

/-- Follow a path of child indices down from the root of `t`; `none` when
some index is out of range.  Paths are how the embedding names positions
inside the engine's tree storage. -/
def subtreeAt : STree → List Nat → Option STree
  | t, [] => some t
  | t, i :: p =>
    match t.children.get? i with
    | some c => subtreeAt c p
    | none => none

/-- A path that actually denotes a position of the tree. -/
def validPos (t : STree) (p : List Nat) : Bool :=
  (subtreeAt t p).isSome

mutual

/-- Modelled from the spec: whether a subtree contains a syntax error —
true iff some reachable node has its error flag or missing flag set
(spec section 8). -/
def hasErrSubtree : STree → Bool
  | .mk d cs => d.isError || d.isMissing || hasErrList cs

/-- `hasErrSubtree` over a list of subtrees. -/
def hasErrList : List STree → Bool
  | [] => false
  | t :: ts => hasErrSubtree t || hasErrList ts

end

/-- Modelled from the spec: the engine's `TSNode` value — either the null
node or a position (a path) inside one tree's storage.  Navigation that
falls off the tree yields the null node (spec section 7: structural
absence is a null result). -/
inductive TSNode where
  | null
  | pos (t : STree) (p : List Nat)

/-- Modelled from the spec: `ts_node_is_null`. -/
def ts_node_is_null : TSNode → Bool
  | .null => true
  | .pos _ _ => false

/-- Modelled from the spec: `ts_node_parent` — parent position, or the null
node at the root (structural absence). -/
def ts_node_parent : TSNode → TSNode
  | .null => .null
  | .pos t p => if p = [] then .null else .pos t p.dropLast

/-- Modelled from the spec: `ts_node_child_count` — number of children (of
any kind) at the node's position; 0 for the null node or an invalid
position. -/
def ts_node_child_count : TSNode → Nat
  | .null => 0
  | .pos t p =>
    match subtreeAt t p with
    | some s => s.children.length
    | none => 0

/-- Modelled from the spec: `ts_node_named_child_count` — number of named
children at the node's position. -/
def ts_node_named_child_count : TSNode → Nat
  | .null => 0
  | .pos t p =>
    match subtreeAt t p with
    | some s => (s.children.filter (fun c => c.data.isNamed)).length
    | none => 0

/-- Modelled from the spec: `ts_node_child` — the i-th child position, or
the null node when the index is out of range (spec section 7: out-of-range
indices propagate the engine's null result, no validation). -/
def ts_node_child : TSNode → Nat → TSNode
  | .null, _ => .null
  | .pos t p, i => if i < ts_node_child_count (.pos t p) then .pos t (p ++ [i]) else .null

/-- Modelled from the spec: `ts_node_has_error` — error containment flag of
the subtree at the node's position. -/
def ts_node_has_error : TSNode → Bool
  | .null => false
  | .pos t p =>
    match subtreeAt t p with
    | some s => hasErrSubtree s
    | none => false

/-- Modelled from the spec: `ts_node_start_byte`. -/
def ts_node_start_byte : TSNode → Nat
  | .null => 0
  | .pos t p =>
    match subtreeAt t p with
    | some s => s.data.startByte
    | none => 0

/-- Modelled from the spec: `ts_node_end_byte`. -/
def ts_node_end_byte : TSNode → Nat
  | .null => 0
  | .pos t p =>
    match subtreeAt t p with
    | some s => s.data.endByte
    | none => 0

/-- Modelled from the spec: `ts_node.id` — an identity stable for the
lifetime of the tree, equal exactly for node values denoting the same tree
position (spec section 4.4).  The engine uses the address of the subtree's
storage; the embedding uses the position itself. -/
def ts_node_raw_id : TSNode → Option (List Nat)
  | .null => none
  | .pos _ p => some p

/-- Modelled from the spec: `ts_node_field_name_for_child` — the
grammar-assigned field name of the i-th child as a C string pointer, NULL
(here `none`) when the child has no field or the index is out of range. -/
def ts_node_field_name_for_child : TSNode → Nat → Option (List Char)
  | .null, _ => none
  | .pos t p, i =>
    match subtreeAt t p with
    | some s =>
      match s.children.get? i with
      | some c => c.data.field
      | none => none
    | none => none

/-- Modelled from the spec: `ts_node_child_by_field_name` — first child
carrying the given field name, the null node when there is none. -/
def ts_node_child_by_field_name : TSNode → List Char → TSNode
  | .null, _ => .null
  | .pos t p, nm =>
    match subtreeAt t p with
    | some s =>
      match s.children.findIdx? (fun c => c.data.field = some nm) with
      | some i => .pos t (p ++ [i])
      | none => .null
    | none => .null

/-- An inclusive-exclusive byte range, embedding the header's
`extent<uint32_t>`; `stop` embeds the C++ field named `end` (a Lean
keyword). -/
structure extent where
  start : Nat
  stop : Nat
  deriving Repr, DecidableEq

/-- `std::string_view::substr(pos, count)`: raises `std::out_of_range`
(embedded as `.error ()`) when `pos > size()`, otherwise returns the
characters from `pos` of length `min count (size - pos)`. -/
def substr (s : List Char) (pos count : Nat) : Except Unit (List Char) :=
  if pos ≤ s.length then .ok ((s.drop pos).take count) else .error ()

/-- `uint32_t` subtraction `a - b` for operands already reduced mod
`2 ^ 32`. -/
def sub32 (a b : Nat) : Nat :=
  (2 ^ 32 + a - b) % 2 ^ 32

/-- Construction of a `std::string_view` from the `char *` returned by the
engine: undefined behaviour (embedded as `.error ()`) when the pointer is
NULL, because the constructor measures the string with `strlen`. -/
def stringViewOfCStr : Option (List Char) → Except Unit (List Char)
  | none => .error ()
  | some s => .ok s

/-- The argument marshalling `(&sv.front(), static_cast<uint32_t>(sv.size()))`
the header performs on each `std::string_view` it hands to the engine:
undefined behaviour (embedded as `none`) on the empty view (`front()`
requires a non-empty view), otherwise the first `size mod 2 ^ 32`
characters (the byte string the engine receives) paired with the length
actually passed. -/
def marshalArg (s : List Char) : Option (List Char × Nat) :=
  if s.isEmpty then none else some (s.take (s.length % 2 ^ 32), s.length % 2 ^ 32)

/-- Modelled from the spec: the engine's grammar descriptor — a symbol
table (name and named-flag per symbol code) and a version (spec
section 4.1). -/
structure TSLanguage where
  symbols : List (List Char × Bool)
  version : Nat

/-- Modelled from the spec: `ts_language_symbol_for_name` — reverse lookup
of a symbol code from the byte string the caller passed. -/
def ts_language_symbol_for_name (l : TSLanguage) (nm : List Char) (isNamed : Bool) : Nat :=
  (l.symbols.findIdx? (fun e => e.1 = nm && e.2 = isNamed)).getD 0

/-- The header's `language` wrapper: a borrowed, non-owning handle to a
grammar descriptor. -/
structure language where
  impl : TSLanguage

/-- `language::get_symbol_for_name`: marshals the name with
`&name.front()` and `static_cast<uint32_t>(name.size())` and calls the
engine; `none` embeds the undefined behaviour on an empty name. -/
def language.get_symbol_for_name (l : language) (name : List Char) (isNamed : Bool) :
    Option Nat :=
  (marshalArg name).map (fun m => ts_language_symbol_for_name l.impl m.1 isNamed)

/-- The header's `node` wrapper: a copyable non-owning view holding one
engine `TSNode`. -/
structure node where
  impl : TSNode

/-- `node::is_null`. -/
def node.is_null (n : node) : Bool :=
  ts_node_is_null n.impl

/-- `node::has_error`. -/
def node.has_error (n : node) : Bool :=
  ts_node_has_error n.impl

/-- `node::get_parent`. -/
def node.get_parent (n : node) : node :=
  ⟨ts_node_parent n.impl⟩

/-- `node::get_num_children`. -/
def node.get_num_children (n : node) : Nat :=
  ts_node_child_count n.impl

/-- `node::get_child`. -/
def node.get_child (n : node) (position : Nat) : node :=
  ⟨ts_node_child n.impl position⟩

/-- `node::get_num_named_children`. -/
def node.get_num_named_children (n : node) : Nat :=
  ts_node_named_child_count n.impl

/-- `node::get_id`. -/
def node.get_id (n : node) : Option (List Nat) :=
  ts_node_raw_id n.impl

/-- `node::get_field_name_for_child`: the engine's `char *` result is
converted to `std::string_view` by implicit construction, which is
undefined behaviour (`.error ()`) when the engine returns NULL. -/
def node.get_field_name_for_child (n : node) (child_position : Nat) :
    Except Unit (List Char) :=
  stringViewOfCStr (ts_node_field_name_for_child n.impl child_position)

/-- `node::get_child_by_field_name`: marshals the name with
`&name.front()` and `static_cast<uint32_t>(name.size())`; `none` embeds
the undefined behaviour on an empty name. -/
def node.get_child_by_field_name (n : node) (name : List Char) : Option node :=
  (marshalArg name).map (fun m => ⟨ts_node_child_by_field_name n.impl m.1⟩)

/-- `node::get_byte_range`. -/
def node.get_byte_range (n : node) : extent :=
  ⟨ts_node_start_byte n.impl, ts_node_end_byte n.impl⟩

/-- `node::get_source_range`: `source.substr(extents.start,
extents.end - extents.start)` with `uint32_t` subtraction. -/
def node.get_source_range (n : node) (source : List Char) : Except Unit (List Char) :=
  let extents := n.get_byte_range
  substr source extents.start (sub32 extents.stop extents.start)

/-- The header's `tree` wrapper as a value: it holds one engine tree
(ownership and release order are modelled separately by the wrapper-trace
semantics below). -/
structure tree where
  impl : STree

/-- Modelled from the spec: `ts_tree_root_node` — the root position of the
tree's storage. -/
def ts_tree_root_node (t : STree) : TSNode :=
  .pos t []

/-- `tree::get_root_node`. -/
def tree.get_root_node (t : tree) : node :=
  ⟨ts_tree_root_node t.impl⟩

/-- `tree::has_error`: literally `get_root_node().has_error()`. -/
def tree.has_error (t : tree) : Bool :=
  (t.get_root_node).has_error

/-- Modelled from the spec: `ts_parser_parse_string` on the byte string the
caller marshalled — always yields a tree; the root spans the whole buffer
the engine received, so byte range `[0, length]` and `[0, 0]` for an empty
buffer (spec sections 4.2 and 8). -/
def ts_parser_parse_string (buf : List Char) : STree :=
  .mk ⟨0, true, false, false, false, 0, buf.length, none⟩ []

/-- The header's `parser` wrapper, bound to one grammar. -/
structure parser where
  lang : language

/-- `parser::parse_string`: marshals the buffer with `&buffer.front()` and
`static_cast<uint32_t>(buffer.size())` and calls the engine; `none` embeds
the undefined behaviour on an empty buffer. -/
def parser.parse_string (_p : parser) (buffer : List Char) : Option tree :=
  (marshalArg buffer).map (fun m => ⟨ts_parser_parse_string m.1⟩)

/-- Modelled from the spec: the engine's `TSTreeCursor` state — the seed
node the cursor was created or last reset at, plus the stack of child
indices leading from the seed to the current position (spec section 4.5:
"a stack of visited ancestors plus a current node"). -/
structure TSTreeCursor where
  seedNode : TSNode
  stack : List Nat

/-- Modelled from the spec: `ts_tree_cursor_new` — a cursor positioned at
the given node, with an empty ancestor stack. -/
def ts_tree_cursor_new (n : TSNode) : TSTreeCursor :=
  ⟨n, []⟩

/-- Modelled from the spec: `ts_tree_cursor_reset` — re-seed at an
arbitrary node, discarding all prior position and ancestor-stack state
(spec section 4.5). -/
def ts_tree_cursor_reset (_c : TSTreeCursor) (n : TSNode) : TSTreeCursor :=
  ⟨n, []⟩

/-- Modelled from the spec: `ts_tree_cursor_copy` — an independent deep
copy of the traversal state (the stack is duplicated, not shared). -/
def ts_tree_cursor_copy (c : TSTreeCursor) : TSTreeCursor :=
  ⟨c.seedNode, c.stack⟩

/-- Modelled from the spec: `ts_tree_cursor_current_node` — the node at the
cursor's current position. -/
def ts_tree_cursor_current_node (c : TSTreeCursor) : TSNode :=
  match c.seedNode with
  | .null => .null
  | .pos t p => .pos t (p ++ c.stack)

/-- Modelled from the spec: `ts_tree_cursor_goto_parent` — pop one level of
the ancestor stack; false (state unchanged) when the cursor already sits
at its seed node, even if that node has ancestors in the full tree (spec
section 4.5: traversal-scope boundary). -/
def ts_tree_cursor_goto_parent (c : TSTreeCursor) : Bool × TSTreeCursor :=
  if c.stack = [] then (false, c) else (true, ⟨c.seedNode, c.stack.dropLast⟩)

/-- Modelled from the spec: `ts_tree_cursor_goto_first_child` — descend to
child 0; false (state unchanged) when the current node has no children. -/
def ts_tree_cursor_goto_first_child (c : TSTreeCursor) : Bool × TSTreeCursor :=
  if 0 < ts_node_child_count (ts_tree_cursor_current_node c) then
    (true, ⟨c.seedNode, c.stack ++ [0]⟩)
  else
    (false, c)

/-- Modelled from the spec: `ts_tree_cursor_goto_next_sibling` — step to
the next sibling at the current depth; false (state unchanged) at the seed
node or at the last sibling. -/
def ts_tree_cursor_goto_next_sibling (c : TSTreeCursor) : Bool × TSTreeCursor :=
  match c.stack.getLast? with
  | none => (false, c)
  | some k =>
    let parentPos : TSTreeCursor := ⟨c.seedNode, c.stack.dropLast⟩
    if k + 1 < ts_node_child_count (ts_tree_cursor_current_node parentPos) then
      (true, ⟨c.seedNode, c.stack.dropLast ++ [k + 1]⟩)
    else
      (false, c)

/-- `cursor::reset(node)`: delegates to `ts_tree_cursor_reset` on the
wrapper's owned `TSTreeCursor` state (the wrapper class holds exactly one
`TSTreeCursor impl`, so the embedding works on that state directly). -/
def cursor.reset (c : TSTreeCursor) (n : node) : TSTreeCursor :=
  ts_tree_cursor_reset c n.impl

/-- `cursor::get_current_node`. -/
def cursor.get_current_node (c : TSTreeCursor) : node :=
  ⟨ts_tree_cursor_current_node c⟩

/-- `cursor::goto_parent`: returns the engine's success flag; the mutated
state is the second component. -/
def cursor.goto_parent (c : TSTreeCursor) : Bool × TSTreeCursor :=
  ts_tree_cursor_goto_parent c

/-- `cursor::goto_first_child`. -/
def cursor.goto_first_child (c : TSTreeCursor) : Bool × TSTreeCursor :=
  ts_tree_cursor_goto_first_child c

/-- `cursor::goto_next_sibling`. -/
def cursor.goto_next_sibling (c : TSTreeCursor) : Bool × TSTreeCursor :=
  ts_tree_cursor_goto_next_sibling c

/-- The navigation calls available on a `cursor`. -/
inductive NavOp where
  | firstChild
  | nextSibling
  | parentStep
  deriving Repr, DecidableEq

/-- One navigation call applied to a cursor state (the returned flag is
discarded; only the state matters for independence). -/
def stepCursor (c : TSTreeCursor) : NavOp → TSTreeCursor
  | .firstChild => (cursor.goto_first_child c).2
  | .nextSibling => (cursor.goto_next_sibling c).2
  | .parentStep => (cursor.goto_parent c).2

/-- A heap of live cursor objects, indexed by allocation order: C++ cursor
objects are distinct mutable objects, so aliasing questions are modelled
through this explicit store. -/
abbrev CursorHeap : Type :=
  List TSTreeCursor

/-- `cursor::copy` on the heap: allocates a fresh cursor object whose state
is `ts_tree_cursor_copy` of cursor `i`'s state (no-op when `i` is not a
live cursor). -/
def cursorHeapCopy (h : CursorHeap) (i : Nat) : CursorHeap :=
  match List.get? h i with
  | some c => h ++ [ts_tree_cursor_copy c]
  | none => h

/-- One navigation call on cursor `i` of the heap: only that object's
state is mutated. -/
def cursorHeapStep (h : CursorHeap) (i : Nat) (op : NavOp) : CursorHeap :=
  match List.get? h i with
  | some c => List.set h i (stepCursor c op)
  | none => h

/-- A whole sequence of navigation calls on cursor `i`. -/
def cursorHeapSteps (h : CursorHeap) (i : Nat) : List NavOp → CursorHeap
  | [] => h
  | op :: ops => cursorHeapSteps (cursorHeapStep h i op) i ops

/-- State of one C++ `tree` wrapper object: alive and owning an engine
handle (the `unique_ptr` holds it), alive but empty (moved-from: the
`unique_ptr` holds null), or already destroyed. -/
inductive WState where
  | live (owns : Option Nat)
  | dead
  deriving Repr, DecidableEq

/-- The operations C++ makes available on `tree` wrappers: move
construction (the copy constructor is implicitly deleted by the
`unique_ptr<TSTree, ...>` member, so no copy operation exists) and
destruction at scope end.  Wrappers are indexed by construction order. -/
inductive TreeOp where
  | moveCtor (src : Nat)
  | destroy (i : Nat)
  deriving Repr, DecidableEq

/-- Semantics of one wrapper operation on (wrapper states, release log).
Move construction transfers the `unique_ptr` contents and leaves the
source holding null; destruction runs the `unique_ptr` destructor, which
calls `ts_tree_delete` (appending the handle to the release log) exactly
when the pointer is non-null.  Operations on indices that are not live
wrappers do nothing. -/
def treeApplyOp : List WState × List Nat → TreeOp → List WState × List Nat
  | (h, log), .moveCtor src =>
    match List.get? h src with
    | some (.live o) => (List.set h src (.live none) ++ [.live o], log)
    | _ => (h, log)
  | (h, log), .destroy i =>
    match List.get? h i with
    | some (.live (some k)) => (List.set h i .dead, log ++ [k])
    | some (.live none) => (List.set h i .dead, log)
    | _ => (h, log)

/-- A sequence of wrapper operations. -/
def treeApplyOps (s : List WState × List Nat) : List TreeOp → List WState × List Nat
  | [] => s
  | op :: ops => treeApplyOps (treeApplyOp s op) ops

/-- Number of live wrappers currently owning handle `k`. -/
def holders (h : List WState) (k : Nat) : Nat :=
  List.count (WState.live (some k)) h

/-- The initial wrapper state right after `parser::parse_string` returned:
one live wrapper owning the freshly allocated engine handle `k`, nothing
released yet. -/
def treeWrapperInit (k : Nat) : List WState × List Nat :=
  ([WState.live (some k)], [])

/-- Example leaf without a grammar field (child 0 of `exRoot`). -/
def exChildA : STree :=
  .mk ⟨1, true, false, false, false, 0, 1, none⟩ []

/-- Example leaf occupying the field named "f" (child 1 of `exRoot`). -/
def exChildB : STree :=
  .mk ⟨2, true, false, false, false, 1, 3, some ['f']⟩ []

/-- Example tree with two children, used by concrete witnesses. -/
def exRoot : STree :=
  .mk ⟨0, true, false, false, false, 0, 3, none⟩ [exChildA, exChildB]

/-- The root position of `exRoot` as a wrapper node. -/
def exNodeRoot : node :=
  ⟨.pos exRoot []⟩

/-- Example leaf node whose byte range is `[5, 7)`. -/
def exNode57 : node :=
  ⟨.pos (.mk ⟨0, true, false, false, false, 5, 7, none⟩ []) []⟩

/-- Example leaf node whose byte range is `[1, 3)`. -/
def exNode13 : node :=
  ⟨.pos (.mk ⟨0, true, false, false, false, 1, 3, none⟩ []) []⟩

/-- Example grammar descriptor with a single named symbol "f". -/
def exLang : language :=
  ⟨⟨[(['f'], true)], 14⟩⟩

/-- Example parser bound to `exLang`. -/
def exParser : parser :=
  ⟨exLang⟩

/-! Helper lemmas. -/

/-- Path lookup splits over path concatenation. -/
theorem subtreeAt_append (a b : List Nat) (t : STree) :
    subtreeAt t (a ++ b) = (subtreeAt t a).bind (fun s => subtreeAt s b) := by
  induction a generalizing t with
  | nil => rfl
  | cons i a ih =>
    simp only [List.cons_append, subtreeAt]
    cases t.children.get? i with
    | none => rfl
    | some c => exact ih c

/-- `uint32_t` subtraction agrees with truncated subtraction on in-range
operands. -/
theorem sub32_eq_sub (a b : Nat) (hba : b ≤ a) (ha : a < 2 ^ 32) :
    sub32 a b = a - b := by
  unfold sub32
  have h1 : 2 ^ 32 + a - b = 2 ^ 32 + (a - b) := by omega
  rw [h1, Nat.add_mod_left, Nat.mod_eq_of_lt (by omega)]

/-- Setting a known element shifts counts by the old and new elements. -/
theorem count_set_get? (l : List WState) (i : Nat) (a b x : WState)
    (hg : List.get? l i = some a) :
    List.count x (List.set l i b) + (if a = x then 1 else 0)
      = List.count x l + (if b = x then 1 else 0) := by
  induction l generalizing i with
  | nil => simp at hg
  | cons hd tl ih =>
    cases i with
    | zero =>
      obtain rfl : hd = a := by simpa using hg
      simp only [List.set, List.count_cons, beq_iff_eq]
      omega
    | succ j =>
      have hg' : List.get? tl j = some a := by simpa using hg
      simp only [List.set, List.count_cons, beq_iff_eq]
      have := ih j hg'
      omega

/-- A navigation call on one cursor object leaves every other object of the
heap untouched. -/
theorem cursorHeapStep_get?_of_ne (l : CursorHeap) (j i : Nat) (op : NavOp)
    (hij : j ≠ i) :
    List.get? (cursorHeapStep l j op) i = List.get? l i := by
  unfold cursorHeapStep
  cases List.get? l j with
  | none => rfl
  | some c => exact List.get?_set_ne _ _ hij

/-- A sequence of navigation calls on one cursor object leaves every other
object of the heap untouched. -/
theorem cursorHeapSteps_get?_of_ne (ops : List NavOp) (l : CursorHeap) (j i : Nat)
    (hij : j ≠ i) :
    List.get? (cursorHeapSteps l j ops) i = List.get? l i := by
  induction ops generalizing l with
  | nil => rfl
  | cons op ops ih =>
    show List.get? (cursorHeapSteps (cursorHeapStep l j op) j ops) i = _
    rw [ih (cursorHeapStep l j op), cursorHeapStep_get?_of_ne l j i op hij]

/-- Allocating the copy at the end of the heap does not move any live
index. -/
theorem cursorHeapCopy_get?_of_lt (h : CursorHeap) (i j : Nat) (hj : j < h.length) :
    List.get? (cursorHeapCopy h i) j = List.get? h j := by
  unfold cursorHeapCopy
  cases List.get? h i with
  | none => rfl
  | some c => exact List.get?_append hj

/-- Copying from a dead index does not change the heap. -/
theorem cursorHeapCopy_of_none (h : CursorHeap) (i : Nat)
    (hi : List.get? h i = none) :
    cursorHeapCopy h i = h := by
  unfold cursorHeapCopy
  rw [hi]

/-- Navigation calls addressed at a dead index do not change the heap. -/
theorem cursorHeapSteps_of_get?_none (ops : List NavOp) (l : CursorHeap) (j : Nat)
    (hj : List.get? l j = none) :
    cursorHeapSteps l j ops = l := by
  induction ops with
  | nil => rfl
  | cons op ops ih =>
    show cursorHeapSteps (cursorHeapStep l j op) j ops = l
    have hstep : cursorHeapStep l j op = l := by
      unfold cursorHeapStep
      rw [hj]
    rw [hstep, ih]

/-- One wrapper operation preserves the ownership invariant: live holders
of handle `k` plus logged releases of `k` stay constant. -/
theorem treeApplyOp_inv (k : Nat) (s : List WState × List Nat) (op : TreeOp)
    (h : holders s.1 k + List.count k s.2 = 1) :
    holders (treeApplyOp s op).1 k + List.count k (treeApplyOp s op).2 = 1 := by
  obtain ⟨hps, log⟩ := s
  cases op with
  | moveCtor src =>
    simp only [treeApplyOp]
    cases hg : List.get? hps src with
    | none => exact h
    | some w =>
      cases w with
      | dead => exact h
      | live o =>
        simp only [holders, List.count_append] at h ⊢
        have hcnt := count_set_get? hps src (.live o) (.live none) (.live (some k)) hg
        have hno : WState.live none ≠ WState.live (some k) := by simp
        rw [if_neg hno] at hcnt
        simp only [List.count_cons, List.count_nil, beq_iff_eq]
        by_cases ho : WState.live o = WState.live (some k)
        · rw [if_pos ho] at hcnt
          rw [if_pos ho]
          omega
        · rw [if_neg ho] at hcnt
          rw [if_neg ho]
          omega
  | destroy i =>
    simp only [treeApplyOp]
    cases hg : List.get? hps i with
    | none => exact h
    | some w =>
      cases w with
      | dead => exact h
      | live o =>
        cases o with
        | none =>
          simp only [holders] at h ⊢
          have hcnt := count_set_get? hps i (.live none) .dead (.live (some k)) hg
          have hno : WState.live none ≠ WState.live (some k) := by simp
          have hdd : WState.dead ≠ WState.live (some k) := by simp
          rw [if_neg hno, if_neg hdd] at hcnt
          omega
        | some q =>
          simp only [holders, List.count_append] at h ⊢
          have hcnt := count_set_get? hps i (.live (some q)) .dead (.live (some k)) hg
          have hdd : WState.dead ≠ WState.live (some k) := by simp
          rw [if_neg hdd] at hcnt
          simp only [List.count_cons, List.count_nil, beq_iff_eq]
          by_cases hq : q = k
          · subst hq
            rw [if_pos rfl] at hcnt
            simp only [if_true]
            omega
          · have h1 : WState.live (some q) ≠ WState.live (some k) := by simp [hq]
            rw [if_neg h1] at hcnt
            rw [if_neg hq]
            omega

/-- The ownership invariant is preserved by every wrapper trace. -/
theorem treeApplyOps_inv (k : Nat) (ops : List TreeOp) (s : List WState × List Nat)
    (h : holders s.1 k + List.count k s.2 = 1) :
    holders (treeApplyOps s ops).1 k + List.count k (treeApplyOps s ops).2 = 1 := by
  induction ops generalizing s with
  | nil => exact h
  | cons op ops ih =>
    show holders (treeApplyOps (treeApplyOp s op) ops).1 k + _ = 1
    exact ih _ (treeApplyOp_inv k s op h)

/-- Lookup of a single-step path is child lookup. -/
theorem subtreeAt_singleton (s : STree) (k : Nat) :
    subtreeAt s [k] = s.children.get? k := by
  simp only [subtreeAt]
  cases s.children.get? k <;> rfl

/-! Claim theorems. -/

/-- C1: over every trace of the operations C++ offers on `tree` wrappers
holding one parsed result (move construction and scope-end destruction —
no copy operation exists, the `unique_ptr` member implicitly deletes the
copy constructor), at most one live wrapper owns the engine handle at any
time, and once every wrapper's scope has ended the engine storage has been
released exactly once. -/
theorem tree_handle_released_exactly_once (k : Nat) (ops : List TreeOp) :
    holders (treeApplyOps (treeWrapperInit k) ops).1 k ≤ 1 ∧
    ((∀ w ∈ (treeApplyOps (treeWrapperInit k) ops).1, w = WState.dead) →
      List.count k (treeApplyOps (treeWrapperInit k) ops).2 = 1) := by
  have hinit : holders (treeWrapperInit k).1 k + List.count k (treeWrapperInit k).2 = 1 := by
    simp [treeWrapperInit, holders, List.count_cons]
  have hinv := treeApplyOps_inv k ops (treeWrapperInit k) hinit
  constructor
  · omega
  · intro hdead
    have h0 : holders (treeApplyOps (treeWrapperInit k) ops).1 k = 0 := by
      rw [holders, List.count_eq_zero]
      intro hmem
      exact absurd (hdead _ hmem) (by simp)
    omega

/-- C1 witness: a concrete trace — move the tree once, then let both
wrappers go out of scope — releases handle 7 exactly once. -/
theorem tree_handle_released_exactly_once_witness :
    holders (treeApplyOps (treeWrapperInit 7)
        [TreeOp.moveCtor 0, TreeOp.destroy 1, TreeOp.destroy 0]).1 7 ≤ 1 ∧
    List.count 7 (treeApplyOps (treeWrapperInit 7)
        [TreeOp.moveCtor 0, TreeOp.destroy 1, TreeOp.destroy 0]).2 = 1 :=
  ⟨(tree_handle_released_exactly_once 7
      [TreeOp.moveCtor 0, TreeOp.destroy 1, TreeOp.destroy 0]).1,
   (tree_handle_released_exactly_once 7
      [TreeOp.moveCtor 0, TreeOp.destroy 1, TreeOp.destroy 0]).2 (by decide)⟩

/-- C2: evaluation of the code at the failing input.  The claim promises
that every buffer — the empty one included, with root byte range
`[0, 0]` — parses to a Tree, but `parse_string` marshals the buffer with
`&buffer.front()`, whose behaviour is undefined on an empty
`string_view`, so the empty-buffer call is not the promised defined
result (`none` embeds the undefined call). -/
theorem parse_string_empty_buffer_undefined :
    parser.parse_string exParser [] = none := rfl

/-- C3: `tree::has_error` returns exactly the boolean
`get_root_node().has_error()`. -/
theorem tree_has_error_eq_root_has_error (t : tree) :
    tree.has_error t = node.has_error (tree.get_root_node t) := rfl

/-- C5: after `cursor::reset(n)`, an immediate `goto_parent()` returns
false and leaves the cursor state unchanged, and the current node is `n`
itself — even when `n` has ancestors in the full tree, because reset
discards the ancestor stack. -/
theorem cursor_reset_scope_boundary (c : TSTreeCursor) (n : node) :
    cursor.goto_parent (cursor.reset c n) = (false, cursor.reset c n) ∧
    cursor.get_current_node (cursor.reset c n) = n := by
  refine ⟨rfl, ?_⟩
  obtain ⟨impl⟩ := n
  cases impl <;>
    simp [cursor.get_current_node, ts_tree_cursor_current_node, cursor.reset,
      ts_tree_cursor_reset]

/-- C6: `cursor::copy` yields an independent cursor object: any sequence
of navigation calls applied to the copy (allocated at index `length h`)
leaves the original cursor object `i` — its state and hence its
`get_current_node` — unchanged. -/
theorem cursor_copy_independent (h : CursorHeap) (i : Nat) (ops : List NavOp) :
    List.get? (cursorHeapSteps (cursorHeapCopy h i) h.length ops) i = List.get? h i ∧
    (List.get? (cursorHeapSteps (cursorHeapCopy h i) h.length ops) i).map
        cursor.get_current_node
      = (List.get? h i).map cursor.get_current_node := by
  have hmain :
      List.get? (cursorHeapSteps (cursorHeapCopy h i) h.length ops) i = List.get? h i := by
    by_cases hi : i < h.length
    · have hne : h.length ≠ i := by omega
      rw [cursorHeapSteps_get?_of_ne ops _ _ _ hne, cursorHeapCopy_get?_of_lt h i i hi]
    · have hnone : List.get? h i = none := List.get?_eq_none.2 (by omega)
      rw [cursorHeapCopy_of_none h i hnone]
      by_cases hij : h.length = i
      · rw [cursorHeapSteps_of_get?_none ops h h.length (by rw [hij]; exact hnone)]
      · rw [cursorHeapSteps_get?_of_ne ops h _ _ hij]
  exact ⟨hmain, by rw [hmain]⟩

/-- C7: a node with a non-null parent is recoverable from its parent: some
in-range child index of the parent leads back to the same tree position
(equal id). -/
theorem node_parent_child_roundtrip (t : STree) (p : List Nat)
    (hv : validPos t p = true)
    (hp : node.is_null (node.get_parent ⟨.pos t p⟩) = false) :
    ∃ k, k < node.get_num_children (node.get_parent ⟨.pos t p⟩) ∧
      node.get_id (node.get_child (node.get_parent ⟨.pos t p⟩) k)
        = node.get_id ⟨.pos t p⟩ := by
  have hne : p ≠ [] := by
    intro hnil
    subst hnil
    simp [node.get_parent, ts_node_parent, node.is_null, ts_node_is_null] at hp
  obtain hnil | ⟨q, k, hqk⟩ := p.eq_nil_or_concat
  · exact absurd hnil hne
  · rw [List.concat_eq_append] at hqk
    subst hqk
    have hpar : node.get_parent ⟨.pos t (q ++ [k])⟩ = ⟨.pos t q⟩ := by
      simp [node.get_parent, ts_node_parent]
    rw [hpar]
    have hv' := hv
    rw [validPos, subtreeAt_append] at hv'
    cases hq : subtreeAt t q with
    | none =>
      rw [hq] at hv'
      simp at hv'
    | some s =>
      rw [hq] at hv'
      rw [Option.some_bind, subtreeAt_singleton] at hv'
      have hk : k < s.children.length := by
        cases hgk : s.children.get? k with
        | none =>
          rw [hgk] at hv'
          simp at hv'
        | some c =>
          by_contra hcon
          rw [List.get?_eq_none.2 (by omega)] at hgk
          exact Option.noConfusion hgk
      have hchild : node.get_child ⟨.pos t q⟩ k = ⟨.pos t (q ++ [k])⟩ := by
        simp [node.get_child, ts_node_child, ts_node_child_count, hq, hk]
      refine ⟨k, ?_, ?_⟩
      · simp [node.get_num_children, ts_node_child_count, hq, hk]
      · rw [hchild]

/-- C7 witness: in the concrete two-child tree, child 1 of the root is
recovered from its parent at index 1. -/
theorem node_parent_child_roundtrip_witness :
    validPos exRoot [1] = true ∧
    node.is_null (node.get_parent ⟨.pos exRoot [1]⟩) = false ∧
    ∃ k, k < node.get_num_children (node.get_parent ⟨.pos exRoot [1]⟩) ∧
      node.get_id (node.get_child (node.get_parent ⟨.pos exRoot [1]⟩) k)
        = node.get_id ⟨.pos exRoot [1]⟩ :=
  ⟨by decide, by decide, node_parent_child_roundtrip exRoot [1] (by decide) (by decide)⟩

/-- C8: for every node, the named children are a subset of all children, so
`get_num_children` is at least `get_num_named_children`. -/
theorem child_count_ge_named_child_count (n : node) :
    node.get_num_named_children n ≤ node.get_num_children n := by
  obtain ⟨impl⟩ := n
  cases impl with
  | null => exact Nat.le_refl 0
  | pos t p =>
    simp only [node.get_num_named_children, node.get_num_children,
      ts_node_named_child_count, ts_node_child_count]
    cases subtreeAt t p with
    | none => exact Nat.le_refl 0
    | some s => exact List.length_filter_le _ s.children

/-- C9: evaluation of the code at the failing input.  The claim (and spec
section 7) promises a null/empty text value — never an error or fault —
when a child has no grammar-assigned field name; but on such a child the
engine returns a NULL `char *`, and the code's implicit conversion to
`std::string_view` runs `strlen` on that NULL pointer, which is undefined
behaviour (`.error ()` embeds the fault): here child 0 of the example root
has no field name. -/
theorem field_name_absent_is_null_pointer_fault :
    node.get_field_name_for_child exNodeRoot 0 = Except.error () := rfl

/-- C4 counterexample: a node with byte range `[5, 7)` sliced against a
2-character buffer.  The claim says every caller-supplied buffer yields
exactly the `[start, end)` substring — a meaningless value, never an
error — but `std::string_view::substr` bounds-checks its `pos` argument
and raises `std::out_of_range` (embedded as `.error ()`) because
`5 > 2`. -/
theorem source_range_short_buffer_raises :
    node.get_source_range exNode57 ['a', 'b'] = Except.error () ∧
    node.get_source_range exNode57 ['a', 'b'] ≠
      Except.ok (((['a', 'b'] : List Char).take 7).drop 5) := by
  refine ⟨rfl, ?_⟩
  intro hcontra
  rw [show node.get_source_range exNode57 ['a', 'b'] = Except.error () from rfl] at hcontra
  exact Except.noConfusion hcontra

/-- C4 amended: for a node with a well-formed byte range (start ≤ end,
within `uint32_t`), `get_source_range(buffer)` returns exactly the
substring from the start byte (inclusive) to the end byte (exclusive)
whenever the buffer reaches the end byte — in particular for the buffer
that was parsed, whose length the engine's ranges never exceed; a foreign
buffer shorter than the start byte instead raises `std::out_of_range`
(an error, contrary to the claim's "meaningless, not an error"). -/
theorem source_range_amended (n : node) (source : List Char)
    (h1 : (node.get_byte_range n).start ≤ (node.get_byte_range n).stop)
    (h2 : (node.get_byte_range n).stop < 2 ^ 32) :
    ((node.get_byte_range n).stop ≤ source.length →
      node.get_source_range n source
        = Except.ok ((source.take (node.get_byte_range n).stop).drop
            (node.get_byte_range n).start)) ∧
    (source.length < (node.get_byte_range n).start →
      node.get_source_range n source = Except.error ()) := by
  constructor
  · intro hlen
    show substr source (node.get_byte_range n).start
        (sub32 (node.get_byte_range n).stop (node.get_byte_range n).start) = _
    rw [sub32_eq_sub _ _ h1 h2]
    unfold substr
    rw [if_pos (le_trans h1 hlen)]
    rw [List.take_drop]
    rw [Nat.add_sub_cancel' h1]
  · intro hlt
    show substr source (node.get_byte_range n).start
        (sub32 (node.get_byte_range n).stop (node.get_byte_range n).start) = _
    unfold substr
    rw [if_neg (by omega)]

/-- C4 witness: slicing the byte range `[1, 3)` out of the 4-character
buffer "abcd" returns exactly characters 1 and 2. -/
theorem source_range_amended_witness :
    node.get_source_range exNode13 ['a', 'b', 'c', 'd']
      = Except.ok (((['a', 'b', 'c', 'd'] : List Char).take 3).drop 1) :=
  (source_range_amended exNode13 ['a', 'b', 'c', 'd'] (by decide) (by decide)).1 (by decide)

/-- C10 amended: for every non-empty string argument of length below
`2 ^ 32`, the marshalling `(&s.front(), static_cast<uint32_t>(s.size()))`
used by `get_symbol_for_name`, `get_child_by_field_name` and
`parse_string` is defined, in bounds, and passes exactly the whole
argument to the engine; the claim's "exactly argument-length bytes" fails
without the `2 ^ 32` bound because the `uint32_t` cast truncates the
length. -/
theorem string_marshalling_amended (l : language) (n : node) (p : parser) (b : Bool)
    (s : List Char) (h1 : s ≠ []) (h2 : s.length < 2 ^ 32) :
    marshalArg s = some (s, s.length) ∧
    language.get_symbol_for_name l s b
      = some (ts_language_symbol_for_name l.impl s b) ∧
    node.get_child_by_field_name n s
      = some ⟨ts_node_child_by_field_name n.impl s⟩ ∧
    parser.parse_string p s = some ⟨ts_parser_parse_string s⟩ ∧
    0 < s.length := by
  have hE : s.isEmpty = false := by
    cases s with
    | nil => exact absurd rfl h1
    | cons a t => rfl
  have hmod : s.length % 2 ^ 32 = s.length := Nat.mod_eq_of_lt h2
  have hm : marshalArg s = some (s, s.length) := by
    unfold marshalArg
    simp only [hE, Bool.false_eq_true, if_false, hmod, List.take_length]
  refine ⟨hm, ?_, ?_, ?_, List.length_pos.2 h1⟩
  · unfold language.get_symbol_for_name
    rw [hm]
    rfl
  · unfold node.get_child_by_field_name
    rw [hm]
    rfl
  · unfold parser.parse_string
    rw [hm]
    rfl

/-- C10 witness: the one-character name "f" is marshalled whole through
all three string-taking operations. -/
theorem string_marshalling_amended_witness :
    marshalArg ['f'] = some (['f'], (['f'] : List Char).length) ∧
    language.get_symbol_for_name exLang ['f'] true
      = some (ts_language_symbol_for_name exLang.impl ['f'] true) ∧
    node.get_child_by_field_name exNodeRoot ['f']
      = some ⟨ts_node_child_by_field_name exNodeRoot.impl ['f']⟩ ∧
    parser.parse_string exParser ['f'] = some ⟨ts_parser_parse_string ['f']⟩ ∧
    0 < (['f'] : List Char).length :=
  string_marshalling_amended exLang exNodeRoot exParser true ['f'] (by decide) (by decide)

/-- C10 counterexample: for the non-empty argument of length `2 ^ 32`, the
`static_cast<uint32_t>` truncates the length to 0, so the marshalling does
not pass argument-length bytes, refuting the claim as stated. -/
theorem string_marshalling_counterexample :
    List.replicate (2 ^ 32) 'a' ≠ [] ∧
    marshalArg (List.replicate (2 ^ 32) 'a')
      ≠ some (List.replicate (2 ^ 32) 'a', (List.replicate (2 ^ 32) 'a').length) := by
  have hlen : (List.replicate (2 ^ 32) 'a').length = 2 ^ 32 :=
    List.length_replicate _ _
  have hne : List.replicate (2 ^ 32) 'a' ≠ [] := by
    intro hcontra
    rw [hcontra] at hlen
    simp at hlen
  refine ⟨hne, ?_⟩
  intro hcontra
  have hE : (List.replicate (2 ^ 32) 'a').isEmpty = false := by
    cases hrep : List.replicate (2 ^ 32) 'a' with
    | nil => exact absurd hrep hne
    | cons x xs => rfl
  unfold marshalArg at hcontra
  rw [hlen] at hcontra
  simp only [hE, Bool.false_eq_true, if_false, Nat.mod_self, List.take_zero,
    Option.some.injEq, Prod.mk.injEq] at hcontra
  exact absurd hcontra.2 (by decide)
